import Mathlib

/-!
Shallow embedding of the Woodpecker pipeline step builder
(`pipeline/stepBuilder.go`) and the external components it calls.

The file `stepBuilder.go` is translated directly: `Build`, the per-axis
loop body, `filterItemsWithMissingDependencies`, `containsItemWithName`,
`stepListContainsItemsToRun`, `environmentVariables`,
`toInternalRepresentation` and `SanitizePath`.

External collaborators that are not part of the repository snapshot
(matrix parser, variable substituter, yaml parser, linter, when-predicate
matcher, metadata constructor, and the compiler's stage construction)
are modelled as oracle functions collected in a `Frontend` record, so the
theorems quantify over their behaviour.  The parts of the external
compiler whose behaviour the specification pins down (environment
composition and secret injection) are modelled from the spec; each such
definition carries a doc comment saying so.
-/

namespace Woodpecker

/-- Go `map[string]string`, modelled as an association list; `envGet`
reads the first binding of a key. -/
abbrev EnvMap := List (String × String)

def envGet : EnvMap → String → Option String
  | [], _ => none
  | (k, v) :: t, key => if k = key then some v else envGet t key

/-- Go map assignment `m[k] = v`: replace the first binding of `k`,
or append a new binding. -/
def envSet : EnvMap → String → String → EnvMap
  | [], key, v => [(key, v)]
  | (k, w) :: t, key, v =>
    if k = key then (k, v) :: t else (k, w) :: envSet t key v

/-- A matrix axis, `matrix.Axis = map[string]string`. -/
abbrev Axis := List (String × String)

/-- `forge_types.FileMeta`: one pipeline source file. -/
structure FileMeta where
  name : String
  data : String
deriving DecidableEq

/-- The fields of `model.Pipeline` the step builder reads. -/
structure Pipeline where
  id : Int
  event : String
deriving DecidableEq

/-- Workflow states used by the step builder (`model.StatusPending`,
`model.StatusSkipped`). -/
inductive WStatus where
  | pending
  | skipped
deriving DecidableEq

/-- The fields of `model.Workflow` set by the step builder. -/
structure Workflow where
  pipelineID : Int
  pid : Nat
  state : WStatus
  environ : Axis
  name : String
deriving DecidableEq

/-- The fields of `model.Secret` the step builder reads. -/
structure Secret where
  name : String
  value : String
  images : List String
  events : List String
  pluginsOnly : Bool
deriving DecidableEq

/-- Modelled from the spec: `model.Secret.Match` (not in the snapshot) —
"the originating secret's event allow-list matches the current event". -/
def Secret.matchEvent (s : Secret) (event : String) : Bool :=
  s.events.contains event

/-- `compiler.Secret` as built in `toInternalRepresentation`. -/
structure CSecret where
  name : String
  value : String
  matchImages : List String
  pluginOnly : Bool
deriving DecidableEq

def toCSecret (s : Secret) : CSecret :=
  { name := s.name, value := s.value, matchImages := s.images,
    pluginOnly := s.pluginsOnly }

/-- The fields of `model.Registry` the step builder reads. -/
structure Registry where
  address : String
  username : String
  password : String
  email : String
deriving DecidableEq

/-- A step of the parsed declarative workflow tree, restricted to the
fields the modelled compiler consumes. -/
structure ParsedStep where
  image : String
  commands : List String
  secretNames : List String
deriving DecidableEq

/-- The parsed declarative workflow (`yaml_types.Workflow`), restricted
to the fields `Build` reads; `whenSrc` is the opaque when-predicate
payload interpreted by the `whenMatch` oracle. -/
structure ParsedWorkflow where
  whenSrc : String
  labels : Option (List (String × String))
  dependsOn : List String
  runsOn : List String
  platform : String
  steps : List ParsedStep
deriving DecidableEq

/-- A lowered backend step (`backend_types.Step`): environment plus the
injected secrets. -/
structure Step where
  image : String
  commands : List String
  environment : EnvMap
  secrets : List CSecret
deriving DecidableEq

structure Stage where
  steps : List Step
deriving DecidableEq

/-- `backend_types.Config`: the executable plan of one workflow. -/
structure Config where
  stages : List Stage
deriving DecidableEq

/-- `pipeline.Item`, the per-workflow output bundle of `Build`. -/
structure Item where
  workflow : Workflow
  platform : String
  labels : List (String × String)
  dependsOn : List String
  runsOn : List String
  config : Config
deriving DecidableEq

/-- The error shapes `Build` can return: errors passed through unwrapped
(`external`), errors wrapped in `yaml.PipelineParseError`, and the
"pipeline has no startpoint" error. -/
inductive BuildError where
  | external (msg : String)
  | pipelineParseError (msg : String)
  | noStartpoint
deriving DecidableEq

/-- The metadata object, reduced to the one capability the step builder
uses directly: `metadata.Environ()`. -/
structure Metadata where
  environ : EnvMap
deriving DecidableEq

/-- Oracles for the external components `Build` calls; each theorem
quantifies over this record.  `metadataFrom` closes over the builder's
forge, repo, current/last pipeline and link arguments; `stagePlan` and
`imageListMatch` abstract the external compiler's stage construction and
image glob matcher. -/
structure Frontend where
  parseMatrix : String → Except String (List Axis)
  metadataFrom : Workflow → Metadata
  envSubst : String → EnvMap → Except String String
  parseYaml : String → Except String ParsedWorkflow
  lint : Bool → ParsedWorkflow → Option String
  whenMatch : ParsedWorkflow → Metadata → Bool × Option String
  stagePlan : ParsedWorkflow → Except String (List (List ParsedStep))
  imageListMatch : List String → String → Bool

/-- The fields of `StepBuilder` the modelled code path reads. -/
structure StepBuilder where
  repoTrusted : Bool
  curr : Pipeline
  secs : List Secret
  regs : List Registry
  envs : EnvMap

/-! ## SanitizePath -/

/-- Go `strings.TrimSuffix` on rune lists. -/
def goTrimSuf (l suf : List Char) : List Char :=
  if suf.isSuffixOf l then l.take (l.length - suf.length) else l

/-- Go `strings.TrimPrefix` on rune lists. -/
def goTrimPre (l pre : List Char) : List Char :=
  if List.isPrefixOf pre l then l.drop pre.length else l

/-- Go `filepath.Base` (unix separator) on rune lists: empty path gives
`"."`; trailing separators are stripped; everything up to the final
separator is dropped; a path of only separators gives `"/"`. -/
def goBase (l : List Char) : List Char :=
  if l = [] then ['.']
  else
    let r := l.reverse.dropWhile (fun c => c == '/')
    let q := r.takeWhile (fun c => !(c == '/'))
    if q = [] then ['/'] else q.reverse

def sanitizeChars (l : List Char) : List Char :=
  goTrimPre (goTrimSuf (goTrimSuf (goBase l) ('.' :: ['y', 'm', 'l']))
    ('.' :: ['y', 'a', 'm', 'l'])) ['.']

/-- `SanitizePath`: basename, strip a trailing `.yml` then `.yaml`,
strip a leading dot. -/
def SanitizePath (path : String) : String :=
  String.mk (sanitizeChars path.data)

/-! ## Dependency reconciliation -/

/-- `containsItemWithName`: name lookup over the item list; only the
workflow name is compared. -/
def containsItemWithName (name : String) (items : List Item) : Bool :=
  items.any (fun item => name == item.workflow.name)

/-- One item's test from the first loop of
`filterItemsWithMissingDependencies`: some declared dependency has no
matching workflow name in the list.  (The Go loop appends the item once
per missing dependency; the duplicates never matter because
`itemsToRemove` is only consulted through `containsItemWithName` and an
emptiness test, so a `filter` is an equivalent translation.) -/
def hasMissingDep (items : List Item) (item : Item) : Bool :=
  item.dependsOn.any (fun dep => !(containsItemWithName dep items))

/-- The recursion of `filterItemsWithMissingDependencies`, made
structural on a fuel argument; every recursive call strictly shrinks the
list, so fuel `items.length` is enough (see
`filterGo_fuel_irrelevant`-style lemmas below). -/
def filterGo : Nat → List Item → List Item
  | 0, items => items
  | fuel + 1, items =>
    if (items.filter (hasMissingDep items)).isEmpty then items
    else
      filterGo fuel
        (items.filter
          (fun item =>
            !(containsItemWithName item.workflow.name
                (items.filter (hasMissingDep items)))))

/-- `filterItemsWithMissingDependencies`: remove every item with an
unresolvable dependency, recursively, to a fixed point. -/
def filterItemsWithMissingDependencies (items : List Item) : List Item :=
  filterGo items.length items

/-- `stepListContainsItemsToRun`: some workflow is still pending. -/
def stepListContainsItemsToRun (items : List Item) : Bool :=
  items.any (fun item => item.workflow.state == WStatus.pending)

/-! ## Environment composition and the compiler -/

/-- `environmentVariables`: the metadata environment with the matrix
axis values written over it. -/
def environmentVariables (md : Metadata) (axis : Axis) : EnvMap :=
  axis.foldl (fun environ kv => envSet environ kv.1 kv.2) md.environ

/-- The "add global environment variables for substituting" loop of
`Build`: fold the caller globals in, never overriding an existing key. -/
def addGlobals (environ : EnvMap) (envs : EnvMap) : EnvMap :=
  envs.foldl
    (fun acc kv => if (envGet acc kv.1).isSome then acc else envSet acc kv.1 kv.2)
    environ

/-- Modelled from the spec: the external `compiler.New(...).Compile`
(not in the snapshot).  Stage construction and the per-step conditions
are abstracted as the `stagePlan` oracle; per the spec, the step
environment is the workflow environment with the caller globals folded
in without clobbering ("Later sources do not clobber earlier
metadata-provided names"), and a secret reaches a step iff the step
requests it by name, its image allow-list admits the step's image
(`imageListMatch` abstracts the glob matcher), and a plugin-only secret
only reaches a step that declares no commands.  The event allow-list is
checked by the caller, `toInternalRepresentation`, before the secret is
handed to the compiler. -/
def compileModel (F : Frontend) (parsed : ParsedWorkflow) (environ : EnvMap)
    (envs : EnvMap) (secrets : List CSecret) : Except String Config :=
  match F.stagePlan parsed with
  | Except.error e => Except.error e
  | Except.ok plan =>
    Except.ok
      { stages :=
          plan.map (fun stg =>
            { steps :=
                stg.map (fun st =>
                  { image := st.image
                    commands := st.commands
                    environment := addGlobals environ envs
                    secrets :=
                      secrets.filter (fun cs =>
                        st.secretNames.contains cs.name
                          && F.imageListMatch cs.matchImages st.image
                          && (!cs.pluginOnly || st.commands.isEmpty)) }) }) }

/-- The event-filtered compiler secrets built at the top of
`toInternalRepresentation`: a secret whose event allow-list does not
match the current event is skipped before the compiler is invoked. -/
def compilerSecrets (B : StepBuilder) : List CSecret :=
  (B.secs.filter (fun sec => sec.matchEvent B.curr.event)).map toCSecret

/-- `toInternalRepresentation`: filter secrets by the current event,
then hand parsed workflow, environment, globals and secrets to the
compiler.  (The registry list, resource limits, netrc and the
`wp_<ulid>_<stepID>` prefix are passed to the external compiler in the
source but play no role in the claims; the compile error is returned
unwrapped.) -/
def toInternalRepresentation (B : StepBuilder) (F : Frontend)
    (parsed : ParsedWorkflow) (environ : EnvMap) : Except BuildError Config :=
  match compileModel F parsed environ B.envs (compilerSecrets B) with
  | Except.error e => Except.error (BuildError.external e)
  | Except.ok ir => Except.ok ir

/-! ## The per-file / per-axis loop of Build -/

/-- The workflow record created at the top of the axis loop. -/
def initialWorkflow (B : StepBuilder) (name : String) (pid : Nat)
    (axis : Axis) : Workflow :=
  { pipelineID := B.curr.id, pid := pid, state := WStatus.pending,
    environ := axis, name := SanitizePath name }

/-- The substitution environment of one axis iteration: metadata plus
axis values, then the caller globals folded in without overriding. -/
def substEnv (B : StepBuilder) (F : Frontend) (name : String) (pid : Nat)
    (axis : Axis) : EnvMap :=
  addGlobals
    (environmentVariables (F.metadataFrom (initialWorkflow B name pid axis)) axis)
    B.envs

/-- The body of the axis loop of `Build` (one file, one axis): variable
substitution, parsing, linting, when-filtering, lowering; `Except.ok
none` is the silent drop of an empty plan (`continue`). -/
def processAxis (B : StepBuilder) (F : Frontend) (name data : String)
    (pid : Nat) (axis : Axis) : Except BuildError (Option Item) :=
  match F.envSubst data (substEnv B F name pid axis) with
  | Except.error e => Except.error (BuildError.external e)
  | Except.ok substituted =>
    match F.parseYaml substituted with
    | Except.error e => Except.error (BuildError.pipelineParseError e)
    | Except.ok parsed =>
      match F.lint B.repoTrusted parsed with
      | some e => Except.error (BuildError.pipelineParseError e)
      | none =>
        match F.whenMatch parsed (F.metadataFrom (initialWorkflow B name pid axis)) with
        | (_, some e) => Except.error (BuildError.external e)
        | (m, none) =>
          match toInternalRepresentation B F parsed (substEnv B F name pid axis) with
          | Except.error e => Except.error e
          | Except.ok ir =>
            if ir.stages = [] then Except.ok none
            else
              Except.ok (some
                { workflow :=
                    if m then initialWorkflow B name pid axis
                    else { initialWorkflow B name pid axis with
                            state := WStatus.skipped }
                  config := ir
                  labels := parsed.labels.getD []
                  dependsOn := parsed.dependsOn
                  runsOn := parsed.runsOn
                  platform := parsed.platform })

/-- The inner `for _, axis := range axes` loop: thread the pid counter
and the accumulated item list; the counter advances only when an item is
appended. -/
def processAxes (B : StepBuilder) (F : Frontend) (name data : String) :
    List Axis → Nat → List Item → Except BuildError (Nat × List Item)
  | [], pid, items => Except.ok (pid, items)
  | axis :: rest, pid, items =>
    match processAxis B F name data pid axis with
    | Except.error e => Except.error e
    | Except.ok none => processAxes B F name data rest pid items
    | Except.ok (some item) =>
      processAxes B F name data rest (pid + 1) (items ++ [item])

/-- The outer `for _, y := range b.Yamls` loop: parse the matrix, default
to one empty axis, then run the axis loop. -/
def buildLoop (B : StepBuilder) (F : Frontend) :
    List FileMeta → Nat → List Item → Except BuildError (Nat × List Item)
  | [], pid, items => Except.ok (pid, items)
  | y :: rest, pid, items =>
    match F.parseMatrix y.data with
    | Except.error e => Except.error (BuildError.external e)
    | Except.ok axes0 =>
      let axes := if axes0.isEmpty then [([] : Axis)] else axes0
      match processAxes B F y.name y.data axes pid items with
      | Except.error e => Except.error e
      | Except.ok (pid', items') => buildLoop B F rest pid' items'

/-- Byte-wise lexicographic comparison of names (UTF-8 byte order agrees
with code-point order). -/
def nameLe : List Char → List Char → Bool
  | [], _ => true
  | _ :: _, [] => false
  | a :: as, b :: bs => if a = b then nameLe as bs else decide (a.toNat < b.toNat)

def insertByName (y : FileMeta) : List FileMeta → List FileMeta
  | [] => [y]
  | z :: zs => if nameLe y.name.data z.name.data then y :: z :: zs
               else z :: insertByName y zs

/-- Modelled from the spec: `forge_types.SortByName` (not in the
snapshot) — "sort is pure lexicographic on name (byte-wise)";
implemented as an insertion sort. -/
def sortByName : List FileMeta → List FileMeta
  | [] => []
  | y :: ys => insertByName y (sortByName ys)

/-- `StepBuilder.Build`: sort the files, run the expansion loop with the
pid counter starting at 1, reconcile dependencies, and fail with the
no-startpoint error when the surviving list is non-empty yet contains
nothing pending. -/
def Build (B : StepBuilder) (F : Frontend) (files : List FileMeta) :
    Except BuildError (List Item) :=
  match buildLoop B F (sortByName files) 1 [] with
  | Except.error e => Except.error e
  | Except.ok (_, items0) =>
    if 0 < (filterItemsWithMissingDependencies items0).length ∧
        stepListContainsItemsToRun (filterItemsWithMissingDependencies items0)
          = false then
      Except.error BuildError.noStartpoint
    else Except.ok (filterItemsWithMissingDependencies items0)

/-! ## Lemmas about environment maps -/

theorem envGet_envSet_ne (key k v : String) (h : k ≠ key) :
    ∀ m : EnvMap, envGet (envSet m key v) k = envGet m k := by
  intro m
  induction m with
  | nil =>
    simp only [envSet, envGet]
    rw [if_neg (fun hk => h hk.symm)]
  | cons kv t ih =>
    obtain ⟨k0, v0⟩ := kv
    by_cases hk : k0 = key
    · subst hk
      simp only [envSet, if_pos rfl, envGet]
      rw [if_neg (fun hk0 => h hk0.symm), if_neg (fun hk0 => h hk0.symm)]
    · simp only [envSet, if_neg hk, envGet]
      by_cases hk0 : k0 = k
      · rw [if_pos hk0, if_pos hk0]
      · rw [if_neg hk0, if_neg hk0, ih]

theorem envGet_addGlobals (k vm : String) :
    ∀ (envs environ : EnvMap), envGet environ k = some vm →
      envGet (addGlobals environ envs) k = some vm := by
  intro envs
  induction envs with
  | nil => intro environ h; simpa [addGlobals] using h
  | cons kv rest ih =>
    intro environ h
    simp only [addGlobals, List.foldl_cons]
    apply ih
    by_cases hs : (envGet environ kv.1).isSome
    · rw [if_pos hs]; exact h
    · rw [if_neg hs]
      have hne : k ≠ kv.1 := by
        intro he
        subst he
        rw [h] at hs
        simp at hs
      rw [envGet_envSet_ne _ _ _ hne, h]

/-! ## Lemmas about the dependency reconciler -/

theorem filterGo_sublist : ∀ (fuel : Nat) (items : List Item),
    List.Sublist (filterGo fuel items) items := by
  intro fuel
  induction fuel with
  | zero => intro items; exact List.Sublist.refl _
  | succ fuel ih =>
    intro items
    simp only [filterGo]
    split
    · exact List.Sublist.refl _
    · exact (ih _).trans (List.filter_sublist _)

theorem filterGo_closure : ∀ (fuel : Nat) (items : List Item),
    items.length ≤ fuel →
    ∀ it ∈ filterGo fuel items, ∀ dep ∈ it.dependsOn,
      containsItemWithName dep (filterGo fuel items) = true := by
  intro fuel
  induction fuel with
  | zero =>
    intro items hlen it hit
    have hnil : items = [] := List.eq_nil_of_length_eq_zero (Nat.le_zero.mp hlen)
    subst hnil
    simp [filterGo] at hit
  | succ fuel ih =>
    intro items hlen
    by_cases hemp : (items.filter (hasMissingDep items)).isEmpty
    · have hall : ∀ x ∈ items, hasMissingDep items x = false := by
        have h0 : items.filter (hasMissingDep items) = [] :=
          List.isEmpty_iff.mp hemp
        intro x hx
        by_contra hne
        have hx2 : x ∈ items.filter (hasMissingDep items) :=
          List.mem_filter.mpr ⟨hx, by revert hne; cases hasMissingDep items x <;> simp⟩
        rw [h0] at hx2
        exact absurd hx2 (List.not_mem_nil x)
      have hgo : filterGo (fuel + 1) items = items := by
        simp only [filterGo]
        rw [if_pos hemp]
      rw [hgo]
      intro it hit dep hdep
      have hmd := hall it hit
      simp only [hasMissingDep] at hmd
      rw [List.any_eq_false] at hmd
      have h2 := hmd dep hdep
      revert h2
      cases containsItemWithName dep items <;> simp
    · have hne : items.filter (hasMissingDep items) ≠ [] := by
        intro h0
        rw [h0] at hemp
        simp at hemp
      obtain ⟨x, hx⟩ := List.exists_mem_of_ne_nil _ hne
      have hx1 : x ∈ items := (List.mem_filter.mp hx).1
      have hxr : containsItemWithName x.workflow.name
          (items.filter (hasMissingDep items)) = true := by
        simp only [containsItemWithName]
        exact List.any_eq_true.mpr ⟨x, hx, by simp⟩
      have hlt :
          (items.filter
            (fun item =>
              !(containsItemWithName item.workflow.name
                  (items.filter (hasMissingDep items))))).length
            < items.length := by
        rw [List.length_filter_lt_length_iff_exists]
        exact ⟨x, hx1, by simp [hxr]⟩
      have hle :
          (items.filter
            (fun item =>
              !(containsItemWithName item.workflow.name
                  (items.filter (hasMissingDep items))))).length ≤ fuel :=
        Nat.lt_succ_iff.mp (Nat.lt_of_lt_of_le hlt hlen)
      have hgo : filterGo (fuel + 1) items
          = filterGo fuel
              (items.filter
                (fun item =>
                  !(containsItemWithName item.workflow.name
                      (items.filter (hasMissingDep items))))) := by
        simp only [filterGo]
        rw [if_neg hemp]
      rw [hgo]
      exact ih _ hle

theorem filterGo_of_resolved (items : List Item)
    (h : ∀ it ∈ items, hasMissingDep items it = false) :
    ∀ fuel, filterGo fuel items = items := by
  intro fuel
  cases fuel with
  | zero => rfl
  | succ fuel =>
    have h0 : items.filter (hasMissingDep items) = [] := by
      rw [List.filter_eq_nil_iff]
      intro a ha
      simp [h a ha]
    simp only [filterGo]
    rw [if_pos (by rw [h0]; rfl)]

/-- **C5.** After `filterItemsWithMissingDependencies` returns, every
name in every surviving item's `dependsOn` list resolves to a surviving
item's workflow name; the survivors form a sublist of the input (so any
item with an unresolved dependency was removed), and the result is a
fixed point of the filter (removal ran transitively to completion). -/
theorem claim5_dependency_closure (items : List Item) :
    List.Sublist (filterItemsWithMissingDependencies items) items ∧
    (∀ it ∈ filterItemsWithMissingDependencies items,
      ∀ dep ∈ it.dependsOn,
        containsItemWithName dep (filterItemsWithMissingDependencies items)
          = true) ∧
    filterItemsWithMissingDependencies
        (filterItemsWithMissingDependencies items)
      = filterItemsWithMissingDependencies items := by
  refine ⟨filterGo_sublist _ _, filterGo_closure _ _ (Nat.le_refl _), ?_⟩
  have hres := filterGo_closure items.length items (Nat.le_refl _)
  apply filterGo_of_resolved
  intro it hit
  simp only [hasMissingDep]
  rw [List.any_eq_false]
  intro dep hdep
  have hc : containsItemWithName dep (filterItemsWithMissingDependencies items)
      = true := hres it hit dep hdep
  simp [hc]

/-- **C10.** The dependency resolver compares only workflow names and
ignores workflow state: a dependency is satisfied whenever any item in
the list (itself included, skipped included) bears the name, and a list
in which every dependency resolves by name is returned unchanged. -/
theorem claim10_name_only_resolution :
    (∀ (dep : String) (items : List Item),
      containsItemWithName dep items = true ↔
        ∃ it ∈ items, dep = it.workflow.name) ∧
    (∀ items : List Item,
      (∀ it ∈ items, ∀ dep ∈ it.dependsOn,
        containsItemWithName dep items = true) →
      filterItemsWithMissingDependencies items = items) := by
  constructor
  · intro dep items
    simp [containsItemWithName, List.any_eq_true]
  · intro items h
    apply filterGo_of_resolved
    intro it hit
    simp only [hasMissingDep]
    rw [List.any_eq_false]
    intro dep hdep
    simp [h it hit dep hdep]

/-! ## Concrete inputs for the reconciler claims -/

def itemNoDeps : Item :=
  { workflow :=
      { pipelineID := 0, pid := 1, state := WStatus.pending,
        environ := [], name := "a" },
    platform := "", labels := [], dependsOn := [], runsOn := [],
    config := { stages := [] } }

def itemDepOnA : Item :=
  { workflow :=
      { pipelineID := 0, pid := 2, state := WStatus.pending,
        environ := [], name := "b" },
    platform := "", labels := [], dependsOn := ["a"], runsOn := [],
    config := { stages := [] } }

theorem claim5_witness :
    containsItemWithName "a"
      (filterItemsWithMissingDependencies [itemNoDeps, itemDepOnA]) = true :=
  (claim5_dependency_closure [itemNoDeps, itemDepOnA]).2.1 itemDepOnA
    (by decide) "a" (by decide)

def itemSkippedA : Item :=
  { workflow :=
      { pipelineID := 0, pid := 1, state := WStatus.skipped,
        environ := [], name := "a" },
    platform := "", labels := [], dependsOn := [], runsOn := [],
    config := { stages := [] } }

def itemSelfAndSkipped : Item :=
  { workflow :=
      { pipelineID := 0, pid := 2, state := WStatus.pending,
        environ := [], name := "b" },
    platform := "", labels := [], dependsOn := ["a", "b"], runsOn := [],
    config := { stages := [] } }

theorem claim10_witness :
    filterItemsWithMissingDependencies [itemSkippedA, itemSelfAndSkipped]
      = [itemSkippedA, itemSelfAndSkipped] :=
  claim10_name_only_resolution.2 [itemSkippedA, itemSelfAndSkipped] (by decide)

/-! ## Lemmas about SanitizePath -/

theorem goTrimSuf_subset (l suf : List Char) : goTrimSuf l suf ⊆ l := by
  simp only [goTrimSuf]
  split
  · exact List.take_subset _ _
  · exact fun _ h => h

theorem goTrimPre_subset (l pre : List Char) : goTrimPre l pre ⊆ l := by
  simp only [goTrimPre]
  split
  · exact List.drop_subset _ _
  · exact fun _ h => h

theorem goBase_cases (l : List Char) :
    goBase l = ['/'] ∨ ∀ c ∈ goBase l, (c == '/') = false := by
  simp only [goBase]
  split
  · right
    intro c hc
    simp only [List.mem_singleton] at hc
    subst hc
    decide
  · split
    · left; rfl
    · right
      intro c hc
      rw [List.mem_reverse] at hc
      have := List.mem_takeWhile_imp hc
      revert this
      cases c == '/' <;> simp

theorem sanitizeChars_cases (l : List Char) :
    sanitizeChars l = ['/'] ∨ ∀ c ∈ sanitizeChars l, (c == '/') = false := by
  rcases goBase_cases l with hb | hb
  · left
    simp only [sanitizeChars, hb]
    decide
  · right
    intro c hc
    exact hb c (goTrimSuf_subset _ _ (goTrimSuf_subset _ _ (goTrimPre_subset _ _ hc)))

theorem goBase_of_no_sep (l : List Char) (hne : l ≠ [])
    (h : ∀ c ∈ l, (c == '/') = false) : goBase l = l := by
  simp only [goBase]
  rw [if_neg hne]
  have hrev : l.reverse ≠ [] := by
    intro h0
    exact hne (List.reverse_eq_nil_iff.mp h0)
  have hdrop : l.reverse.dropWhile (fun c => c == '/') = l.reverse := by
    cases hr : l.reverse with
    | nil => exact absurd hr hrev
    | cons a t =>
      have ha : (a == '/') = false := by
        apply h
        rw [← List.mem_reverse, hr]
        exact List.mem_cons_self a t
      rw [List.dropWhile_cons, ha]
      simp
  rw [hdrop]
  have htake : l.reverse.takeWhile (fun c => !(c == '/')) = l.reverse := by
    rw [List.takeWhile_eq_self_iff]
    intro c hc
    rw [List.mem_reverse] at hc
    simp [h c hc]
  rw [htake, if_neg hrev, List.reverse_reverse]

theorem sanitizeChars_nil : sanitizeChars [] = [] := by decide

theorem sanitizeChars_sep : sanitizeChars ['/'] = ['/'] := by decide

/-- **C9 (amended).** `SanitizePath` is not idempotent on all inputs
(see the counterexample `"a.yml.yaml"`); it is idempotent on every input
whose sanitized form neither still ends in `.yml` or `.yaml` nor still
starts with a dot. -/
theorem claim9_amended (x : String)
    (h1 : List.isSuffixOf ('.' :: ['y', 'm', 'l']) (SanitizePath x).data = false)
    (h2 : List.isSuffixOf ('.' :: ['y', 'a', 'm', 'l']) (SanitizePath x).data
      = false)
    (h3 : List.isPrefixOf ['.'] (SanitizePath x).data = false) :
    SanitizePath (SanitizePath x) = SanitizePath x := by
  have hdata : (SanitizePath x).data = sanitizeChars x.data := rfl
  rw [hdata] at h1 h2 h3
  show String.mk (sanitizeChars (sanitizeChars x.data))
      = String.mk (sanitizeChars x.data)
  rcases sanitizeChars_cases x.data with hs | hs
  · rw [hs, sanitizeChars_sep]
  · cases hnil : sanitizeChars x.data with
    | nil => rw [sanitizeChars_nil]
    | cons a t =>
      rw [← hnil]
      have hbase : goBase (sanitizeChars x.data) = sanitizeChars x.data := by
        apply goBase_of_no_sep _ (by rw [hnil]; simp) hs
      have hyml : goTrimSuf (sanitizeChars x.data) ('.' :: ['y', 'm', 'l'])
          = sanitizeChars x.data := by
        simp only [goTrimSuf]
        rw [if_neg (by simp [h1])]
      have hyaml : goTrimSuf (sanitizeChars x.data) ('.' :: ['y', 'a', 'm', 'l'])
          = sanitizeChars x.data := by
        simp only [goTrimSuf]
        rw [if_neg (by simp [h2])]
      have hdot : goTrimPre (sanitizeChars x.data) ['.']
          = sanitizeChars x.data := by
        simp only [goTrimPre]
        rw [if_neg (by simp [h3])]
      conv =>
        lhs
        rw [sanitizeChars, hbase, hyml, hyaml, hdot]

/-- **C9 (counterexample).** `SanitizePath` is not idempotent: the input
`"a.yml.yaml"` sanitizes to `"a.yml"`, whose sanitization strips a
further suffix and yields `"a"`. -/
theorem claim9_counterexample :
    SanitizePath "a.yml.yaml" = "a.yml" ∧
    SanitizePath (SanitizePath "a.yml.yaml") = "a" ∧
    SanitizePath (SanitizePath "a.yml.yaml") ≠ SanitizePath "a.yml.yaml" := by
  refine ⟨by decide, by decide, by decide⟩

theorem claim9_witness :
    List.isSuffixOf ('.' :: ['y', 'm', 'l']) (SanitizePath "a.txt").data
        = false ∧
      List.isSuffixOf ('.' :: ['y', 'a', 'm', 'l']) (SanitizePath "a.txt").data
        = false ∧
      List.isPrefixOf ['.'] (SanitizePath "a.txt").data = false ∧
      SanitizePath (SanitizePath "a.txt") = SanitizePath "a.txt" :=
  ⟨by decide, by decide, by decide,
    claim9_amended "a.txt" (by decide) (by decide) (by decide)⟩

/-! ## Lemmas about the compiler model and the build loop -/

theorem compileModel_steps {F : Frontend} {parsed : ParsedWorkflow}
    {environ envs : EnvMap} {secrets : List CSecret} {cfg : Config}
    (h : compileModel F parsed environ envs secrets = Except.ok cfg) :
    ∀ stg ∈ cfg.stages, ∀ st ∈ stg.steps,
      st.environment = addGlobals environ envs ∧
      ∀ cs ∈ st.secrets, cs ∈ secrets ∧
        F.imageListMatch cs.matchImages st.image = true ∧
        (cs.pluginOnly = true → st.commands = []) := by
  unfold compileModel at h
  split at h
  · cases h
  · simp only [Except.ok.injEq] at h
    subst h
    intro stg hstg st hst
    simp only [List.mem_map] at hstg
    obtain ⟨stg0, hstg0, rfl⟩ := hstg
    simp only [List.mem_map] at hst
    obtain ⟨st0, hst0, rfl⟩ := hst
    refine ⟨rfl, ?_⟩
    intro cs hcs
    rw [List.mem_filter] at hcs
    obtain ⟨hmem, hpred⟩ := hcs
    simp only [Bool.and_eq_true] at hpred
    obtain ⟨⟨hname, himg⟩, hpo⟩ := hpred
    refine ⟨hmem, himg, ?_⟩
    intro hcp
    rw [hcp] at hpo
    simp only [Bool.not_true, Bool.false_or] at hpo
    exact List.isEmpty_iff.mp hpo

theorem compileModel_stages {F : Frontend} {parsed : ParsedWorkflow}
    {environ envs : EnvMap} {secrets : List CSecret} {cfg : Config}
    (h : compileModel F parsed environ envs secrets = Except.ok cfg)
    (hnil : cfg.stages = []) : F.stagePlan parsed = Except.ok [] := by
  unfold compileModel at h
  split at h
  · cases h
  · rename_i plan hplan
    simp only [Except.ok.injEq] at h
    subst h
    simp only [List.map_eq_nil_iff] at hnil
    rw [hplan, hnil]

theorem compilerSecrets_spec {B : StepBuilder} {cs : CSecret}
    (h : cs ∈ compilerSecrets B) :
    ∃ s ∈ B.secs, cs = toCSecret s ∧ s.matchEvent B.curr.event = true := by
  unfold compilerSecrets at h
  rw [List.mem_map] at h
  obtain ⟨s, hs, rfl⟩ := h
  rw [List.mem_filter] at hs
  exact ⟨s, hs.1, rfl, hs.2⟩

theorem toInternalRepresentation_ok {B : StepBuilder} {F : Frontend}
    {parsed : ParsedWorkflow} {environ : EnvMap} {cfg : Config}
    (h : toInternalRepresentation B F parsed environ = Except.ok cfg) :
    compileModel F parsed environ B.envs (compilerSecrets B) = Except.ok cfg := by
  unfold toInternalRepresentation at h
  split at h
  · cases h
  · rename_i ir heq
    cases h
    exact heq

theorem toInternalRepresentation_error_shape {B : StepBuilder} {F : Frontend}
    {parsed : ParsedWorkflow} {environ : EnvMap} {e : BuildError}
    (h : toInternalRepresentation B F parsed environ = Except.error e) :
    ∃ s, e = BuildError.external s := by
  unfold toInternalRepresentation at h
  split at h
  · rename_i s heq
    cases h
    exact ⟨s, rfl⟩
  · cases h

theorem processAxis_some_spec {B : StepBuilder} {F : Frontend}
    {name data : String} {pid : Nat} {axis : Axis} {item : Item}
    (h : processAxis B F name data pid axis = Except.ok (some item)) :
    item.workflow.pid = pid ∧
    ∃ parsed ir,
      toInternalRepresentation B F parsed (substEnv B F name pid axis)
          = Except.ok ir ∧
      item.config = ir := by
  unfold processAxis at h
  split at h
  · cases h
  split at h
  · cases h
  rename_i parsed hparse
  split at h
  · cases h
  split at h
  · cases h
  rename_i m hwhen
  split at h
  · cases h
  rename_i ir hir
  split at h
  · cases h
  simp only [Except.ok.injEq, Option.some.injEq] at h
  subst h
  refine ⟨?_, parsed, ir, hir, rfl⟩
  cases m <;> rfl

theorem processAxis_none_spec {B : StepBuilder} {F : Frontend}
    {name data : String} {pid : Nat} {axis : Axis}
    (h : processAxis B F name data pid axis = Except.ok none) :
    ∃ parsed, F.stagePlan parsed = Except.ok [] := by
  unfold processAxis at h
  split at h
  · cases h
  split at h
  · cases h
  rename_i parsed hparse
  split at h
  · cases h
  split at h
  · cases h
  split at h
  · cases h
  rename_i ir hir
  split at h
  · rename_i hnil
    exact ⟨parsed, compileModel_stages (toInternalRepresentation_ok hir) hnil⟩
  · cases h

theorem processAxis_ne_noStartpoint (B : StepBuilder) (F : Frontend)
    (name data : String) (pid : Nat) (axis : Axis) :
    processAxis B F name data pid axis
      ≠ Except.error BuildError.noStartpoint := by
  intro h
  unfold processAxis at h
  split at h
  · simp at h
  split at h
  · simp at h
  split at h
  · simp at h
  split at h
  · simp at h
  split at h
  · rename_i e hir
    simp only [Except.error.injEq] at h
    subst h
    obtain ⟨s, hs⟩ := toInternalRepresentation_error_shape hir
    cases hs
  split at h
  · cases h
  · cases h

theorem processAxes_spec (B : StepBuilder) (F : Frontend) (name data : String) :
    ∀ (axes : List Axis) (pid : Nat) (acc : List Item) (pr : Nat × List Item),
      processAxes B F name data axes pid acc = Except.ok pr →
      ∃ new, pr.2 = acc ++ new ∧ pr.1 = pid + new.length ∧
        new.map (fun it => it.workflow.pid) = List.range' pid new.length ∧
        ∀ it ∈ new, ∃ p a, processAxis B F name data p a = Except.ok (some it) := by
  intro axes
  induction axes with
  | nil =>
    intro pid acc pr h
    simp only [processAxes] at h
    cases h
    exact ⟨[], by simp, by simp, by simp, by simp⟩
  | cons axis rest ih =>
    intro pid acc pr h
    simp only [processAxes] at h
    split at h
    · cases h
    · exact ih pid acc pr h
    · rename_i item hsome
      obtain ⟨new, h1, h2, h3, h4⟩ := ih (pid + 1) (acc ++ [item]) pr h
      refine ⟨item :: new, ?_, ?_, ?_, ?_⟩
      · rw [h1, List.append_assoc]
        rfl
      · rw [h2]
        simp only [List.length_cons]
        omega
      · simp only [List.map_cons, h3, List.length_cons]
        rw [(processAxis_some_spec hsome).1]
        rfl
      · intro it hit
        rcases List.mem_cons.mp hit with hh | ht
        · subst hh
          exact ⟨pid, axis, hsome⟩
        · exact h4 it ht

theorem processAxes_ne_noStartpoint (B : StepBuilder) (F : Frontend)
    (name data : String) :
    ∀ (axes : List Axis) (pid : Nat) (acc : List Item),
      processAxes B F name data axes pid acc
        ≠ Except.error BuildError.noStartpoint := by
  intro axes
  induction axes with
  | nil =>
    intro pid acc h
    simp [processAxes] at h
  | cons axis rest ih =>
    intro pid acc h
    simp only [processAxes] at h
    split at h
    · rename_i e hax
      simp only [Except.error.injEq] at h
      subst h
      exact processAxis_ne_noStartpoint B F name data pid axis hax
    · exact ih pid acc h
    · exact ih (pid + 1) (acc ++ [_]) h

theorem buildLoop_spec (B : StepBuilder) (F : Frontend) :
    ∀ (files : List FileMeta) (pid : Nat) (acc : List Item)
      (pr : Nat × List Item),
      buildLoop B F files pid acc = Except.ok pr →
      ∃ new, pr.2 = acc ++ new ∧ pr.1 = pid + new.length ∧
        new.map (fun it => it.workflow.pid) = List.range' pid new.length ∧
        ∀ it ∈ new, ∃ n d p a, processAxis B F n d p a = Except.ok (some it) := by
  intro files
  induction files with
  | nil =>
    intro pid acc pr h
    simp only [buildLoop] at h
    cases h
    exact ⟨[], by simp, by simp, by simp, by simp⟩
  | cons y rest ih =>
    intro pid acc pr h
    simp only [buildLoop] at h
    split at h
    · cases h
    · rename_i axes0 hmx
      split at h
      · cases h
      · rename_i pid1 items1 hpa
        obtain ⟨new1, e1, e2, e3, e4⟩ :=
          processAxes_spec B F y.name y.data _ pid acc _ hpa
        obtain ⟨new2, f1, f2, f3, f4⟩ := ih pid1 items1 pr h
        have e1' : items1 = acc ++ new1 := e1
        have e2' : pid1 = pid + new1.length := e2
        refine ⟨new1 ++ new2, ?_, ?_, ?_, ?_⟩
        · rw [f1, e1', List.append_assoc]
        · rw [f2, e2']
          simp only [List.length_append]
          omega
        · simp only [List.map_append, e3, f3, List.length_append]
          rw [e2']
          have h2 := List.range'_append pid new1.length new2.length 1
          simp only [Nat.one_mul] at h2
          rw [h2, Nat.add_comm]
        · intro it hit
          rcases List.mem_append.mp hit with hh | ht
          · obtain ⟨p, a, hps⟩ := e4 it hh
            exact ⟨y.name, y.data, p, a, hps⟩
          · exact f4 it ht

theorem buildLoop_ne_noStartpoint (B : StepBuilder) (F : Frontend) :
    ∀ (files : List FileMeta) (pid : Nat) (acc : List Item),
      buildLoop B F files pid acc ≠ Except.error BuildError.noStartpoint := by
  intro files
  induction files with
  | nil =>
    intro pid acc h
    simp [buildLoop] at h
  | cons y rest ih =>
    intro pid acc h
    simp only [buildLoop] at h
    split at h
    · simp at h
    · split at h
      · rename_i e hax
        simp only [Except.error.injEq] at h
        subst h
        exact processAxes_ne_noStartpoint B F y.name y.data _ _ _ hax
      · exact ih _ _ h

theorem Build_ok_shape {B : StepBuilder} {F : Frontend} {files : List FileMeta}
    {items : List Item} (h : Build B F files = Except.ok items) :
    ∃ pr, buildLoop B F (sortByName files) 1 [] = Except.ok pr ∧
      items = filterItemsWithMissingDependencies pr.2 := by
  unfold Build at h
  split at h
  · cases h
  · rename_i p items0 heq
    split at h
    · cases h
    · cases h
      exact ⟨(p, items0), heq, rfl⟩

/-- **C1.** Secret scoping: every secret injected into any step of any
emitted executable plan originates from an input secret whose event
allow-list matches the current pipeline event (non-matching secrets are
filtered before the compiler is invoked), whose image allow-list admits
the step's image, and whose plugin-only flag, when set, forces the step
to declare no commands. -/
theorem claim1_secret_scoping (B : StepBuilder) (F : Frontend)
    (files : List FileMeta) (items : List Item)
    (h : Build B F files = Except.ok items) :
    ∀ it ∈ items, ∀ stg ∈ it.config.stages, ∀ st ∈ stg.steps,
      ∀ cs ∈ st.secrets,
        ∃ s ∈ B.secs, cs = toCSecret s ∧
          s.matchEvent B.curr.event = true ∧
          F.imageListMatch s.images st.image = true ∧
          (s.pluginsOnly = true → st.commands = []) := by
  obtain ⟨pr, hloop, rfl⟩ := Build_ok_shape h
  intro it hit stg hstg st hst cs hcs
  have hit2 : it ∈ pr.2 := (filterGo_sublist _ _).subset hit
  obtain ⟨new, hnew, _, _, horig⟩ := buildLoop_spec B F _ 1 [] pr hloop
  rw [hnew] at hit2
  simp only [List.nil_append] at hit2
  obtain ⟨n, d, p, a, hps⟩ := horig it hit2
  obtain ⟨_, parsed, ir, hir, hcfg⟩ := processAxis_some_spec hps
  have hsteps := compileModel_steps (toInternalRepresentation_ok hir)
  rw [hcfg] at hstg
  obtain ⟨henv, hsec⟩ := hsteps stg hstg st hst
  obtain ⟨hmem, himg, hpo⟩ := hsec cs hcs
  obtain ⟨s, hsmem, hseq, hsev⟩ := compilerSecrets_spec hmem
  refine ⟨s, hsmem, hseq, hsev, ?_, ?_⟩
  · rw [hseq] at himg
    exact himg
  · intro hplug
    apply hpo
    rw [hseq]
    exact hplug

/-- **C2 (amended).** The workflow PIDs of the items accumulated by the
build loop (before dependency reconciliation) form the dense sequence
1, 2, ..., n in sorted-source-order then matrix-order traversal; the
item list returned by `Build` is a sublist of that, so its PIDs are
strictly increasing positive integers, but reconciliation may remove
items and leave gaps (and drop pid 1 itself; see the counterexample). -/
theorem claim2_amended (B : StepBuilder) (F : Frontend)
    (files : List FileMeta) :
    (∀ pr, buildLoop B F (sortByName files) 1 [] = Except.ok pr →
      pr.2.map (fun it => it.workflow.pid) = List.range' 1 pr.2.length) ∧
    (∀ items, Build B F files = Except.ok items →
      List.Pairwise (fun a b => a < b)
        (items.map (fun it => it.workflow.pid)) ∧
      ∀ q ∈ items.map (fun it => it.workflow.pid), 1 ≤ q) := by
  have hpre : ∀ pr, buildLoop B F (sortByName files) 1 [] = Except.ok pr →
      pr.2.map (fun it => it.workflow.pid) = List.range' 1 pr.2.length := by
    intro pr hloop
    obtain ⟨new, hnew, _, h3, _⟩ := buildLoop_spec B F _ 1 [] pr hloop
    have hnew' : pr.2 = new := by simpa using hnew
    rw [hnew', h3]
  refine ⟨hpre, ?_⟩
  intro items h
  obtain ⟨pr, hloop, hitems⟩ := Build_ok_shape h
  have hsub : List.Sublist items pr.2 := by
    rw [hitems]
    exact filterGo_sublist _ _
  have hmap : List.Sublist (items.map fun it => it.workflow.pid)
      (pr.2.map fun it => it.workflow.pid) := hsub.map _
  rw [hpre pr hloop] at hmap
  constructor
  · exact (List.pairwise_lt_range' ..).sublist hmap
  · intro q hq
    have hqm := hmap.subset hq
    rw [List.mem_range'_1] at hqm
    exact hqm.1

/-- **C4.** `Build` fails with the no-startpoint error exactly when the
loop succeeded and the reconciled item list is non-empty with nothing
pending; an empty reconciled list is returned successfully; and the
pending test is precisely "some workflow is in the pending state". -/
theorem claim4_no_startpoint (B : StepBuilder) (F : Frontend)
    (files : List FileMeta) :
    (Build B F files = Except.error BuildError.noStartpoint ↔
      ∃ pr, buildLoop B F (sortByName files) 1 [] = Except.ok pr ∧
        filterItemsWithMissingDependencies pr.2 ≠ [] ∧
        stepListContainsItemsToRun (filterItemsWithMissingDependencies pr.2)
          = false) ∧
    (∀ pr, buildLoop B F (sortByName files) 1 [] = Except.ok pr →
      filterItemsWithMissingDependencies pr.2 = [] →
      Build B F files = Except.ok []) ∧
    (∀ items : List Item, stepListContainsItemsToRun items = false ↔
      ∀ it ∈ items, ¬ it.workflow.state = WStatus.pending) := by
  refine ⟨⟨?_, ?_⟩, ?_, ?_⟩
  · intro h
    unfold Build at h
    split at h
    · rename_i e heq
      simp only [Except.error.injEq] at h
      subst h
      exact absurd heq (buildLoop_ne_noStartpoint B F _ 1 [])
    · rename_i p items0 heq
      split at h
      · rename_i hcond
        refine ⟨(p, items0), heq, ?_, hcond.2⟩
        intro h0
        rw [h0] at hcond
        simp at hcond
      · cases h
  · rintro ⟨pr, hloop, hne, hrun⟩
    obtain ⟨p, items0⟩ := pr
    unfold Build
    rw [hloop]
    simp only
    rw [if_pos ⟨List.length_pos.mpr hne, hrun⟩]
  · intro pr hloop hnil
    obtain ⟨p, items0⟩ := pr
    unfold Build
    rw [hloop]
    simp only
    rw [if_neg, hnil]
    rw [hnil]
    simp
  · intro items
    simp [stepListContainsItemsToRun, List.any_eq_false]

/-! ## Concrete builders, frontends and files for witnesses and
counterexamples -/

def baseBuilder : StepBuilder :=
  { repoTrusted := true, curr := { id := 0, event := "push" }, secs := [],
    regs := [], envs := [] }

def psEcho : ParsedStep :=
  { image := "alpine", commands := ["echo hi"], secretNames := [] }

def pwPlain : ParsedWorkflow :=
  { whenSrc := "", labels := none, dependsOn := [], runsOn := [],
    platform := "", steps := [psEcho] }

def pwDangling : ParsedWorkflow :=
  { whenSrc := "", labels := none, dependsOn := ["zz"], runsOn := [],
    platform := "", steps := [psEcho] }

/-- A frontend on which every stage of the pipeline succeeds. -/
def okFront : Frontend :=
  { parseMatrix := fun _ => Except.ok []
    metadataFrom := fun _ => { environ := [] }
    envSubst := fun d _ => Except.ok d
    parseYaml := fun _ => Except.ok pwPlain
    lint := fun _ _ => none
    whenMatch := fun _ _ => (true, none)
    stagePlan := fun p => Except.ok [p.steps]
    imageListMatch := fun _ _ => true }

def c1Secret : Secret :=
  { name := "TOKEN", value := "tok", images := ["alpine"],
    events := ["push"], pluginsOnly := false }

def c1Builder : StepBuilder := { baseBuilder with secs := [c1Secret] }

def pwWithSecret : ParsedWorkflow :=
  { whenSrc := "", labels := none, dependsOn := [], runsOn := [],
    platform := "",
    steps := [{ image := "alpine", commands := [], secretNames := ["TOKEN"] }] }

def c1Front : Frontend :=
  { okFront with
    parseYaml := fun _ => Except.ok pwWithSecret
    imageListMatch := fun pats img => pats.contains img }

def c1out : List Item :=
  (Build c1Builder c1Front [⟨"a", "wa"⟩]).toOption.getD []

theorem claim1_witness :
    Build c1Builder c1Front [⟨"a", "wa"⟩] = Except.ok c1out ∧
    ∀ it ∈ c1out, ∀ stg ∈ it.config.stages, ∀ st ∈ stg.steps,
      ∀ cs ∈ st.secrets,
        ∃ s ∈ c1Builder.secs, cs = toCSecret s ∧
          s.matchEvent c1Builder.curr.event = true ∧
          c1Front.imageListMatch s.images st.image = true ∧
          (s.pluginsOnly = true → st.commands = []) :=
  ⟨rfl, claim1_secret_scoping c1Builder c1Front [⟨"a", "wa"⟩] c1out rfl⟩

def c2Front : Frontend :=
  { okFront with
    parseYaml := fun s =>
      if s = "wa" then Except.ok pwDangling else Except.ok pwPlain }

def c2Files : List FileMeta := [⟨"a", "wa"⟩, ⟨"b", "wb"⟩]

/-- **C2 (counterexample).** With two source files where the first
workflow declares a dependency on a non-existent workflow `"zz"`,
reconciliation removes pid 1 and `Build` succeeds with the single
remaining item carrying pid 2 — so the returned PIDs neither start at 1
nor form the dense sequence of their length. -/
theorem claim2_counterexample :
    (match Build baseBuilder c2Front c2Files with
      | Except.ok l => l.map (fun it => it.workflow.pid)
      | Except.error _ => []) = [2] ∧
    ¬ ([2] : List Nat) = List.range' 1 1 :=
  ⟨by decide, by decide⟩

def c2wPre : Nat × List Item :=
  (buildLoop baseBuilder okFront (sortByName [⟨"b", "wb"⟩]) 1 []).toOption.getD
    (0, [])

theorem claim2_witness :
    c2wPre.2.map (fun it => it.workflow.pid) = List.range' 1 c2wPre.2.length :=
  (claim2_amended baseBuilder okFront [⟨"b", "wb"⟩]).1 c2wPre rfl

def c4Front : Frontend := { okFront with whenMatch := fun _ _ => (false, none) }

def c4pr : Nat × List Item :=
  (buildLoop baseBuilder c4Front (sortByName [⟨"a", "wa"⟩]) 1 []).toOption.getD
    (0, [])

theorem claim4_witness :
    Build baseBuilder c4Front [⟨"a", "wa"⟩]
      = Except.error BuildError.noStartpoint :=
  (claim4_no_startpoint baseBuilder c4Front [⟨"a", "wa"⟩]).1.mpr
    ⟨c4pr, rfl, by decide, by decide⟩

/-! ## C3: skipped workflows -/

/-- The item emitted for a skipped workflow (used to state C3). -/
def skippedItem (B : StepBuilder) (name : String) (pid : Nat) (axis : Axis)
    (parsed : ParsedWorkflow) (ir : Config) : Item :=
  { workflow :=
      { initialWorkflow B name pid axis with state := WStatus.skipped },
    platform := parsed.platform, labels := parsed.labels.getD [],
    dependsOn := parsed.dependsOn, runsOn := parsed.runsOn, config := ir }

/-- **C3 (amended).** When the when-predicate evaluates to false without
error the workflow is marked skipped; it is emitted only if its compiled
plan is non-empty (an empty plan is silently dropped, and dependency
reconciliation may still remove the emitted item).  When predicate
evaluation returns an error, the axis iteration — and hence the whole
compilation — fails with that error. -/
theorem claim3_amended (B : StepBuilder) (F : Frontend) (name data : String)
    (pid : Nat) (axis : Axis) (sub : String) (parsed : ParsedWorkflow)
    (ir : Config)
    (hsub : F.envSubst data (substEnv B F name pid axis) = Except.ok sub)
    (hparse : F.parseYaml sub = Except.ok parsed)
    (hlint : F.lint B.repoTrusted parsed = none) :
    (∀ m e,
      F.whenMatch parsed (F.metadataFrom (initialWorkflow B name pid axis))
        = (m, some e) →
      processAxis B F name data pid axis
        = Except.error (BuildError.external e)) ∧
    (F.whenMatch parsed (F.metadataFrom (initialWorkflow B name pid axis))
        = (false, none) →
     toInternalRepresentation B F parsed (substEnv B F name pid axis)
        = Except.ok ir →
      (ir.stages = [] → processAxis B F name data pid axis = Except.ok none) ∧
      (ir.stages ≠ [] →
        ∃ item, processAxis B F name data pid axis = Except.ok (some item) ∧
          item.workflow.state = WStatus.skipped)) := by
  constructor
  · intro m e hw
    simp only [processAxis, hsub, hparse, hlint, hw]
  · intro hw hcompile
    constructor
    · intro hnil
      simp only [processAxis, hsub, hparse, hlint, hw, hcompile, hnil,
        if_pos]
    · intro hne
      refine ⟨skippedItem B name pid axis parsed ir, ?_, rfl⟩
      simp only [processAxis, hsub, hparse, hlint, hw, hcompile]
      rw [if_neg hne]
      rfl

def c3Front : Frontend :=
  { okFront with
    whenMatch := fun _ _ => (false, none)
    stagePlan := fun _ => Except.ok [] }

/-- **C3 (counterexample).** A workflow whose when-predicate evaluates
to false without error is not always retained: when its compiled plan is
empty the item is silently dropped, and `Build` returns an empty list. -/
theorem claim3_counterexample :
    c3Front.whenMatch pwPlain { environ := [] } = (false, none) ∧
    Build baseBuilder c3Front [⟨"a", "wa"⟩] = Except.ok [] :=
  ⟨rfl, rfl⟩

def c3ir : Config :=
  (toInternalRepresentation baseBuilder c4Front pwPlain
    (substEnv baseBuilder c4Front "a" 1 [])).toOption.getD { stages := [] }

theorem claim3_witness :
    ∃ item, processAxis baseBuilder c4Front "a" "wa" 1 []
        = Except.ok (some item) ∧
      item.workflow.state = WStatus.skipped :=
  ((claim3_amended baseBuilder c4Front "a" "wa" 1 [] "wa" pwPlain c3ir
      rfl rfl rfl).2 rfl rfl).2 (by decide)

/-! ## C6: metadata precedence -/

/-- **C6.** A key bound in the metadata-derived environment (metadata
plus matrix axis) keeps its metadata value: folding in the caller
globals never overwrites it, both in the substitution environment and in
every compiled step environment of the emitted item. -/
theorem claim6_metadata_precedence (B : StepBuilder) (F : Frontend)
    (name data : String) (pid : Nat) (axis : Axis) (k vm vg : String)
    (hm : envGet
        (environmentVariables (F.metadataFrom (initialWorkflow B name pid axis))
          axis) k = some vm)
    (hg : envGet B.envs k = some vg) :
    envGet (substEnv B F name pid axis) k = some vm ∧
    ∀ item, processAxis B F name data pid axis = Except.ok (some item) →
      ∀ stg ∈ item.config.stages, ∀ st ∈ stg.steps,
        envGet st.environment k = some vm := by
  have h1 : envGet (substEnv B F name pid axis) k = some vm :=
    envGet_addGlobals k vm B.envs _ hm
  refine ⟨h1, ?_⟩
  intro item hps stg hstg st hst
  obtain ⟨_, parsed, ir, hir, hcfg⟩ := processAxis_some_spec hps
  have hsteps := compileModel_steps (toInternalRepresentation_ok hir)
  rw [hcfg] at hstg
  obtain ⟨henv, _⟩ := hsteps stg hstg st hst
  rw [henv]
  exact envGet_addGlobals k vm B.envs _ h1

def c6Front : Frontend :=
  { okFront with metadataFrom := fun _ => { environ := [("K", "vm")] } }

def c6Builder : StepBuilder := { baseBuilder with envs := [("K", "vg")] }

theorem claim6_witness :
    envGet (substEnv c6Builder c6Front "a" 1 []) "K" = some "vm" :=
  (claim6_metadata_precedence c6Builder c6Front "a" "wa" 1 [] "K" "vm" "vg"
    (by decide) (by decide)).1

/-! ## C7: matrix totality -/

/-- The number of compilations a file contributes: the length of its
parsed matrix axis list, or 1 when the file declares no matrix. -/
def expectedCount (F : Frontend) (y : FileMeta) : Nat :=
  match F.parseMatrix y.data with
  | Except.ok axes => if axes.isEmpty then 1 else axes.length
  | Except.error _ => 0

theorem processAxes_count {B : StepBuilder} {F : Frontend} {name data : String}
    (hplan : ∀ parsed, F.stagePlan parsed ≠ Except.ok []) :
    ∀ (axes : List Axis) (pid : Nat) (acc : List Item) (pr : Nat × List Item),
      processAxes B F name data axes pid acc = Except.ok pr →
      pr.2.length = acc.length + axes.length := by
  intro axes
  induction axes with
  | nil =>
    intro pid acc pr h
    simp only [processAxes] at h
    cases h
    simp
  | cons axis rest ih =>
    intro pid acc pr h
    simp only [processAxes] at h
    split at h
    · cases h
    · rename_i hnone
      obtain ⟨parsed, hp⟩ := processAxis_none_spec hnone
      exact absurd hp (hplan parsed)
    · rename_i item hsome
      have hrec := ih (pid + 1) (acc ++ [item]) pr h
      rw [List.length_append] at hrec
      simp only [List.length_cons, List.length_singleton, List.length_nil]
        at hrec ⊢
      omega

theorem buildLoop_count {B : StepBuilder} {F : Frontend}
    (hplan : ∀ parsed, F.stagePlan parsed ≠ Except.ok []) :
    ∀ (files : List FileMeta) (pid : Nat) (acc : List Item)
      (pr : Nat × List Item),
      buildLoop B F files pid acc = Except.ok pr →
      pr.2.length = acc.length + (files.map (expectedCount F)).sum := by
  intro files
  induction files with
  | nil =>
    intro pid acc pr h
    simp only [buildLoop] at h
    cases h
    simp
  | cons y rest ih =>
    intro pid acc pr h
    simp only [buildLoop] at h
    split at h
    · cases h
    · rename_i axes0 hmx
      split at h
      · cases h
      · rename_i pid1 items1 heq
        have hc := processAxes_count hplan _ pid acc _ heq
        have hrest := ih pid1 items1 pr h
        have hc' : items1.length
            = acc.length
              + (if axes0.isEmpty = true then [([] : Axis)] else axes0).length :=
          hc
        have hexp : (if axes0.isEmpty = true then [([] : Axis)] else axes0).length
            = expectedCount F y := by
          simp only [expectedCount, hmx]
          by_cases hax : axes0.isEmpty <;> simp [hax]
        rw [List.map_cons, List.sum_cons]
        omega

theorem insertByName_perm (y : FileMeta) :
    ∀ l, List.Perm (insertByName y l) (y :: l) := by
  intro l
  induction l with
  | nil => simp [insertByName]
  | cons z zs ih =>
    simp only [insertByName]
    split
    · exact List.Perm.refl _
    · exact (List.Perm.cons z ih).trans (List.Perm.swap y z zs)

theorem sortByName_perm : ∀ files, List.Perm (sortByName files) files := by
  intro files
  induction files with
  | nil => simp [sortByName]
  | cons y ys ih =>
    exact (insertByName_perm y (sortByName ys)).trans (List.Perm.cons y ih)

/-- **C7 (amended).** Provided the compiler never produces an empty
plan, the number of items accumulated by the build loop equals the sum
over files of the cardinality of the file's matrix axis list (1 for a
file declaring no matrix).  (When a compilation yields an empty plan the
item is dropped from the count — see the counterexample — and dependency
reconciliation can remove further items after the loop.) -/
theorem claim7_amended (B : StepBuilder) (F : Frontend) (files : List FileMeta)
    (hplan : ∀ parsed, F.stagePlan parsed ≠ Except.ok []) :
    ∀ pr, buildLoop B F (sortByName files) 1 [] = Except.ok pr →
      pr.2.length = (files.map (expectedCount F)).sum := by
  intro pr h
  have hc := buildLoop_count hplan (sortByName files) 1 [] pr h
  simp only [List.length_nil, Nat.zero_add] at hc
  rw [hc]
  exact List.Perm.sum_eq (List.Perm.map _ (sortByName_perm files))

/-- **C7 (counterexample).** One file with no matrix should contribute
one item, but when its compiled plan is empty the item is silently
dropped: `Build` returns zero items while the matrix cartesian sum
is 1. -/
theorem claim7_counterexample :
    Build baseBuilder c3Front [⟨"a", "wa"⟩] = Except.ok [] ∧
    ([(⟨"a", "wa"⟩ : FileMeta)].map (expectedCount c3Front)).sum = 1 :=
  ⟨rfl, rfl⟩

def c7pr : Nat × List Item :=
  (buildLoop baseBuilder okFront (sortByName [⟨"a", "wa"⟩]) 1 []).toOption.getD
    (0, [])

theorem claim7_witness :
    c7pr.2.length = ([(⟨"a", "wa"⟩ : FileMeta)].map (expectedCount okFront)).sum :=
  claim7_amended baseBuilder okFront [⟨"a", "wa"⟩]
    (fun parsed h => by simp [okFront] at h) c7pr rfl

/-! ## C8: lint failures -/

/-- **C8 (amended).** When the linter rejects a parsed workflow, the
axis iteration fails with the linter's error wrapped in
`PipelineParseError` — the same kind used for structural parse errors,
not a distinct lint-error kind — and `Build` propagates the error. -/
theorem claim8_amended (B : StepBuilder) (F : Frontend) :
    (∀ name data pid axis sub parsed e,
      F.envSubst data (substEnv B F name pid axis) = Except.ok sub →
      F.parseYaml sub = Except.ok parsed →
      F.lint B.repoTrusted parsed = some e →
      processAxis B F name data pid axis
        = Except.error (BuildError.pipelineParseError e)) ∧
    (∀ (y : FileMeta) (err : BuildError),
      F.parseMatrix y.data = Except.ok [] →
      processAxis B F y.name y.data 1 [] = Except.error err →
      Build B F [y] = Except.error err) := by
  constructor
  · intro name data pid axis sub parsed e hsub hparse hlint
    simp only [processAxis, hsub, hparse, hlint]
  · intro y err hmx hpa
    unfold Build
    have hsort : sortByName [y] = [y] := rfl
    rw [hsort]
    simp only [buildLoop, hmx, List.isEmpty_nil, if_pos, processAxes, hpa]

def c8Front : Frontend :=
  { okFront with lint := fun _ _ => some "lint violation" }

/-- **C8 (counterexample).** A lint rejection surfaces from `Build` as
the `PipelineParseError` wrapper — the very kind the claim says it must
be distinct from. -/
theorem claim8_counterexample :
    Build baseBuilder c8Front [⟨"a", "wa"⟩]
      = Except.error (BuildError.pipelineParseError "lint violation") :=
  rfl

theorem claim8_witness :
    processAxis baseBuilder c8Front "a" "wa" 1 []
      = Except.error (BuildError.pipelineParseError "lint violation") :=
  (claim8_amended baseBuilder c8Front).1 "a" "wa" 1 [] "wa" pwPlain
    "lint violation" rfl rfl rfl

end Woodpecker
